import Mathlib

/-!
Verification development for the `spotify-dl-lib` download pipeline
(`src/download.rs`, `src/lib.rs`).

Rust strings are embedded as `List Char` (a Rust `String` is a sequence of
Unicode scalar values; all operations the code performs — push, iterate,
join, ends_with, truncate of an ASCII suffix — act on that sequence).
String literals are written as Lean string literals converted with `.data`.
-/

namespace SpotifyDL

/-- Embedding of Rust strings: a sequence of Unicode scalar values. -/
abbrev Str := List Char

/-! ## `Downloader::clean_file_name` (src/download.rs:307-320) -/

/-- The `invalid_chars` array of `clean_file_name` (src/download.rs:308). -/
def invalidChars : Str := ['<', '>', ':', '\'', '"', '/', '\\', '|', '?', '*']

/-- Rust `char::is_control`: Unicode general category Cc,
i.e. U+0000..U+001F and U+007F..U+009F. -/
def isRustControl (c : Char) : Bool :=
  c.toNat < 0x20 || (0x7f ≤ c.toNat && c.toNat ≤ 0x9f)

/-- Rust `char::is_ascii`: code point at most U+007F. -/
def isRustAscii (c : Char) : Bool :=
  c.toNat ≤ 0x7f

/-- The per-character keep condition of the loop body of `clean_file_name`
(src/download.rs:313-317): not an invalid character, ASCII unless the
platform allows non-ASCII, and not a control character. -/
def keepChar (allowsNonAscii : Bool) (c : Char) : Bool :=
  !(invalidChars.contains c) && (isRustAscii c || allowsNonAscii) && !(isRustControl c)

/-- `Downloader::clean_file_name` (src/download.rs:307-320), parameterised by
the compile-time platform test `cfg!(windows)`; `allows_non_ascii = !cfg!(windows)`
(src/download.rs:312). The loop pushes exactly the kept characters in order,
i.e. it filters the character sequence. -/
def cleanFileName (windows : Bool) (s : Str) : Str :=
  s.filter (keepChar (!windows))

/-! ## `Downloader::get_file_name` (src/download.rs:278-305) -/

/-- Rust `Vec::join(", ")` on a vector of strings. -/
def joinCommaSpace (parts : List Str) : Str :=
  match parts with
  | [] => []
  | [p] => p
  | p :: rest => p ++ (", ".data) ++ joinCommaSpace rest

/-- `Downloader::get_file_name` (src/download.rs:278-305), as a function of the
resolved metadata (artist names in order, track name) and the track id rendered
in base62. If there are more than 3 artists, the first 3 are joined by `", "`
and `", and others"` follows; otherwise all artists are joined by `", "`.
The composed name is passed through `clean_file_name`. -/
def getFileName (windows : Bool) (artists : List Str) (trackName base62 : Str) : Str :=
  if 3 < artists.length then
    cleanFileName windows
      (joinCommaSpace (artists.take 3) ++ ", and others - ".data
        ++ trackName ++ " - ".data ++ base62)
  else
    cleanFileName windows
      (joinCommaSpace artists ++ " - ".data ++ trackName ++ " - ".data ++ base62)

/-! ## `Downloader::album_name` (src/download.rs:334-359) -/

/-- Rust `str::ends_with(pat)` for a string pattern: the last `pat.length`
characters equal `pat` (when `pat` is longer than `s` the dropped list is `s`
itself and the equality test fails, as `ends_with` does). -/
def endsWithStr (s pat : Str) : Bool :=
  s.drop (s.length - pat.length) == pat

/-- The `for (i, artist_id) in album_artist_vec.iter().enumerate()` loop of
`album_name` (src/download.rs:344-351), over the already-resolved artist
names: for each index `i < 3` it pushes `"<artist>, "`; at `i = 3` it pushes
`"and others..."` and breaks. -/
def albumArtistsLoop (i : Nat) (names : List Str) : Str :=
  match names with
  | [] => []
  | n :: rest =>
    if 3 ≤ i then "and others...".data
    else n ++ ", ".data ++ albumArtistsLoop (i + 1) rest

/-- The artist part of `album_name` (src/download.rs:342-355): the loop output,
with a trailing `", "` removed when present (src/download.rs:353-355). -/
def albumArtistsString (names : List Str) : Str :=
  if endsWithStr (albumArtistsLoop 0 names) (", ".data) then
    (albumArtistsLoop 0 names).dropLast.dropLast
  else albumArtistsLoop 0 names

/-- `Downloader::album_name` (src/download.rs:334-359), as a function of the
resolved album data (album name, artist names in lookup order) and the album
id rendered in base62. -/
def albumName (windows : Bool) (artistNames : List Str) (name base62 : Str) : Str :=
  cleanFileName windows
    (albumArtistsString artistNames ++ " - ".data ++ name ++ " - ".data ++ base62)

/-! ## Output path construction (src/download.rs:108-152) -/

/-- Modelled from the spec: the `Format` enum lives in `src/encoder.rs`, which is
not among the provided sources. Spec §3/§4.5 give two variants, a
lossy-compressed container and a lossless container; `src/lib.rs:155-159`
constructs them as `Format::Mp3` and `Format::Flac`. -/
inductive Format where
  | mp3
  | flac
deriving DecidableEq

/-- Modelled from the spec: `Format::extension` is defined in the missing
`src/encoder.rs`; spec §4.2 step 2 says the extension is the format's
canonical extension, so `"mp3"` for the lossy variant and `"flac"` for the
lossless one. -/
def Format.extension : Format → Str
  | .mp3 => "mp3".data
  | .flac => "flac".data

/-- `DownloadOptions` (src/download.rs:41-48). `compression` is marked
`#[allow(dead_code)]` in the source. -/
structure DownloadOptions where
  destination : Str
  compression : Option Nat
  parallel : Nat
  format : Format

/-- Rust `PathBuf::join` with a relative component, on the POSIX platform
class: base, separator, component. -/
def joinPath (base comp : Str) : Str :=
  base ++ ['/'] ++ comp

/-- Rust `Path::set_extension`/`with_extension` on a single path component:
truncate the component to its file stem (the part before the last `'.'`,
unless that dot is the leading character) and append `'.'` and the new
extension. -/
def rustSetExtension (name ext : Str) : Str :=
  match name.reverse.findIdx? (fun c => c == '.') with
  | none => name ++ ['.'] ++ ext
  | some j =>
    let i := name.length - 1 - j
    if i = 0 then name ++ ['.'] ++ ext
    else name.take i ++ ['.'] ++ ext

/-- `Downloader::playlist_name` (src/download.rs:322-332), as a function of the
resolved playlist data: `clean_file_name("{user} - {name} - {base62-id}")`. -/
def playlistName (windows : Bool) (creator name base62 : Str) : Str :=
  cleanFileName windows
    (creator ++ " - ".data ++ name ++ " - ".data ++ base62)

/-- The output-path block of `download_track` (src/download.rs:116-152):
if the track has a playlist id, nest under the playlist name from
`playlist_name`; else if it has an album id, nest under the name from
`album_name`; else place directly under the destination. `with_extension`
acts on the path's final component, which is exactly `fileName`
(`clean_file_name` strips `'/'`, so the file name contributes no separator),
so it is applied to that component before joining. -/
def resolveOutputPath (windows : Bool) (opts : DownloadOptions)
    (playlistMeta : Option (Str × Str × Str))
    (albumMeta : Option (List Str × Str × Str))
    (fileName : Str) : Str :=
  match playlistMeta with
  | some (creator, pname, pid) =>
    joinPath (joinPath opts.destination (playlistName windows creator pname pid))
      (rustSetExtension fileName opts.format.extension)
  | none =>
    match albumMeta with
    | some (artists, aname, aid) =>
      joinPath (joinPath opts.destination (albumName windows artists aname aid))
        (rustSetExtension fileName opts.format.extension)
    | none =>
      joinPath opts.destination (rustSetExtension fileName opts.format.extension)

/-! ## The shared phase cell (src/download.rs:63-79 and 172-270) -/

/-- The `Action` enum (src/download.rs:63-79). -/
inductive Action where
  | downloading (fileName : Str) (downloadedBytes totalBytes : Nat)
  | encoding (fileName : Str)
  | writing (fileName : Str)
  | downloaded (fileName : Str)
deriving DecidableEq

/-- `SinkEvent` (consumed at src/download.rs:222-244): a write chunk with
cumulative byte count and total estimate, or end of stream. -/
inductive SinkEvent where
  | write (bytes total : Nat) (content : List Int)
  | finished

/-- The byte counts written to the phase cell by the accumulation loop
(src/download.rs:222-244): one update per `Write` event received before the
first `Finished`; the loop breaks at `Finished` (events after it are never
received) and exits when the channel closes (end of the list). -/
def accumWrites : List SinkEvent → List (Nat × Nat)
  | [] => []
  | .finished :: _ => []
  | .write b t _ :: rest => (b, t) :: accumWrites rest

/-- Position of a phase in the four-state chain
Downloading → Encoding → Writing → Downloaded. -/
def phaseIdx : Action → Nat
  | .downloading _ _ _ => 0
  | .encoding _ => 1
  | .writing _ => 2
  | .downloaded _ => 3

/-- The sequence of values taken by the shared phase cell during one
`download_track` run (src/download.rs:172-270): created as
`Downloading{0,0}` (line 172), overwritten with byte counts per `Write`
event (line 230), set to `Encoding` before the encoder runs (line 250),
to `Writing` before the file write (line 259) when encoding succeeded
(the `?` on line 254 returns first otherwise), and to `Downloaded`
(line 268) when the write succeeded (the `?` on line 262). -/
def phaseTrace (fileName : Str) (events : List SinkEvent)
    (encodeOk writeOk : Bool) : List Action :=
  Action.downloading fileName 0 0
    :: (accumWrites events).map (fun bt => Action.downloading fileName bt.1 bt.2)
    ++ [Action.encoding fileName]
    ++ if encodeOk then
        Action.writing fileName
          :: (if writeOk then [Action.downloaded fileName] else [])
      else []

/-! ## Stage failures of `download_track` (src/download.rs:108-272) -/

/-- Which container the track belongs to, per `track.playlist_id` /
`track.album_id` (src/download.rs:119, 131). -/
inductive TrackSource where
  | playlist
  | album
  | plain
deriving DecidableEq

/-- Success/failure of each fallible operation one `download_track` run
performs, in source order. -/
structure PipelineEnv where
  /-- `track.metadata(&self.session).await?` (src/download.rs:109). -/
  metadataOk : Bool
  /-- the second metadata fetch inside `get_file_name`, `.unwrap()`ed
  (src/download.rs:280). -/
  metadataOk2 : Bool
  /-- `to_base62().unwrap()` (src/download.rs:281, 328, 340). -/
  base62Ok : Bool
  /-- `Playlist::get(...).await.unwrap()` (src/download.rs:323-324). -/
  playlistLookupOk : Bool
  /-- `Album::get(...).await.unwrap()` (src/download.rs:335-336). -/
  albumLookupOk : Bool
  /-- `Artist::get(...).await.unwrap()` (src/download.rs:349, 362-363). -/
  artistLookupOk : Bool
  /-- `.to_str().ok_or(...)?` on the joined path (src/download.rs:128-149). -/
  pathUtf8Ok : Bool
  /-- `encoder.encode(samples).await?` (src/download.rs:254). -/
  encodeOk : Bool
  /-- `stream.write_to_file(&path).await?` (src/download.rs:262). -/
  writeOk : Bool

/-- How one `download_track` run ends. The code's error type is `anyhow::Error`
throughout; no `MetadataError`/`PathError`/`PlaybackError`/`EncodeError`/
`WriteError` type exists in the sources, so an error return carries no stage
tag. A `.unwrap()` on a failed operation is a panic, not a return. -/
inductive RunOutcome where
  | ok
  | errorUntagged
  | panicked
deriving DecidableEq

/-- Whether the name-resolution lookups that the path block performs for this
track source all succeed (src/download.rs:119-152). -/
def lookupsOk (src : TrackSource) (env : PipelineEnv) : Bool :=
  match src with
  | .playlist => env.playlistLookupOk
  | .album => env.albumLookupOk && env.artistLookupOk
  | .plain => true

/-- Outcome of one `download_track` run, following the source order of its
fallible operations: the `?` on the first metadata fetch (line 109) returns an
untagged error; the `.unwrap()`s inside `get_file_name` (lines 280-281) and the
playlist/album/artist lookups (lines 323-324, 335-336, 349, 362-363) panic;
the `.to_str().ok_or(..)?` (lines 128-149), the encode `?` (line 254) and the
write `?` (line 262) return untagged errors. The accumulation loop has no
failure path (a closed channel merely ends it, line 222). -/
def downloadTrackOutcome (src : TrackSource) (env : PipelineEnv) : RunOutcome :=
  if !env.metadataOk then .errorUntagged
  else if !env.metadataOk2 then .panicked
  else if !env.base62Ok then .panicked
  else if !(lookupsOk src env) then .panicked
  else if !env.pathUtf8Ok then .errorUntagged
  else if !env.encodeOk then .errorUntagged
  else if !env.writeOk then .errorUntagged
  else .ok

/-- One `download_track` run paired with whether it attempted cleanup of a
partially written file. No branch of `download_track` deletes or truncates
the output file — after a failed write the function returns at once
(src/download.rs:262) — so the flag is `false` on every path. -/
def downloadTrackRun (src : TrackSource) (env : PipelineEnv) : RunOutcome × Bool :=
  (downloadTrackOutcome src env, false)

/-! ## Outputs as a function of the options (src/download.rs:116-262) -/

/-- The encoded byte stream (src/download.rs:252-254): the encoder is chosen by
`get_encoder(options.format)` and applied to the accumulated samples. The
encoder itself lives in the missing `src/encoder.rs` and is abstracted as a
function `encode` of exactly the data the code hands it: the format and the
samples. -/
def encodedOutput (encode : Format → List Int → List Nat)
    (opts : DownloadOptions) (samples : List Int) : List Nat :=
  encode opts.format samples

/-- The externally visible products of one successful `download_track` run:
the resolved output path and the encoded bytes written to it. -/
def downloadTrackOutputs (windows : Bool) (encode : Format → List Int → List Nat)
    (opts : DownloadOptions)
    (playlistMeta : Option (Str × Str × Str))
    (albumMeta : Option (List Str × Str × Str))
    (fileName : Str) (samples : List Int) : Str × List Nat :=
  (resolveOutputPath windows opts playlistMeta albumMeta fileName,
    encodedOutput encode opts samples)

/-! ## `SpotifyDownloader::download_tracks` (src/lib.rs:147-178) -/

/-- The `match format` at src/lib.rs:155-159: `"mp3"` and `"flac"` map to the
two variants; any other string hits the `panic!` arm. -/
def parseFormat (s : Str) : Option Format :=
  if s = "mp3".data then some Format.mp3
  else if s = "flac".data then some Format.flac
  else none

/-- The observable steps of `SpotifyDownloader::download_tracks` after the
format match: `get_tracks` resolves the requested tracks (src/lib.rs:164),
then the downloader pipelines run (src/lib.rs:166-170). -/
inductive LibEffect where
  | tracksResolved
  | pipelinesStarted
deriving DecidableEq

/-- How a `SpotifyDownloader::download_tracks` call ends: the `panic!` arm of
the format match, or a run with the defaulted knobs (`parallel.unwrap_or(5)`,
`compression.unwrap_or(4)`, src/lib.rs:161-162). -/
inductive LibOutcome where
  | formatPanic
  | ran (parallel compression : Nat) (format : Format)
deriving DecidableEq

/-- `SpotifyDownloader::download_tracks` (src/lib.rs:147-178): the format
string is matched first (src/lib.rs:155-159); on the `panic!` arm nothing
else runs, so the effect list is empty. Otherwise the defaults are applied,
tracks are resolved and the pipelines run. -/
def libDownloadTracks (format : Str) (parallel compression : Option Nat) :
    LibOutcome × List LibEffect :=
  match parseFormat format with
  | none => (.formatPanic, [])
  | some f =>
    (.ran (parallel.getD 5) (compression.getD 4) f,
      [.tracksResolved, .pipelinesStarted])

/-! ## `Downloader::download_tracks` (src/download.rs:91-105)

The batch scheduler is the single combinator chain
`stream::iter(tracks).map(download_track).buffer_unordered(parallel).try_collect()`.
The combinators come from the `futures` crate; their contracts are:
`buffer_unordered(P)` keeps at most `P` futures from the source stream running
at once, starting the next queued future (in stream order) whenever capacity
is free, and yields results in completion order; `try_collect` consumes that
stream, stopping and returning the first `Err` item it sees, or returning `Ok`
once the stream is exhausted. The model below is a small-step interpreter of
that chain: each round first starts queued tracks up to capacity `P`, then an
oracle picks which in-flight pipeline completes next. -/

/-- Result of one pipeline (the `Result<()>` of `download_track`). -/
inductive TRes where
  | ok
  | err
deriving DecidableEq

/-- Observable scheduler events: a pipeline for the track at a given queue
position is started, or the pipeline for a track completes with a result. -/
inductive BEvent where
  | started (i : Nat)
  | complete (i : Nat) (r : TRes)
deriving DecidableEq

/-- Result of the whole `download_tracks` call: `Ok(())`, the first pipeline
error, or (modelling artefact) no progress possible — which a run of
`buffer_unordered` with positive capacity never reaches. -/
inductive BOutcome where
  | okAll
  | firstErr (i : Nat)
  | stuck
deriving DecidableEq

def isStarted : BEvent → Bool
  | .started _ => true
  | .complete _ _ => false

def isComplete : BEvent → Bool
  | .started _ => false
  | .complete _ _ => true

def isErrComplete : BEvent → Bool
  | .complete _ .err => true
  | _ => false

/-- The admission phase of one `buffer_unordered` poll: move tracks from the
head of the queue into the in-flight set while fewer than `P` are in flight,
recording a `started` event for each. Returns the remaining queue, the new
in-flight list and the events. -/
def fill (P : Nat) : List (Nat × TRes) → List (Nat × TRes) →
    List (Nat × TRes) × List (Nat × TRes) × List BEvent
  | [], active => ([], active, [])
  | t :: q, active =>
    if active.length < P then
      let r := fill P q (active ++ [t])
      (r.1, r.2.1, BEvent.started t.1 :: r.2.2)
    else (t :: q, active, [])

/-- One run of `buffer_unordered(P)` + `try_collect`, driven by `fuel` (an
upper bound on the number of completions) and an `oracle` choosing, each
round, which in-flight pipeline completes next (completion order is not under
the program's control). Each round starts up to capacity, then one in-flight
pipeline completes: an `Err` makes `try_collect` return it at once (no further
admission, no further polling); an `Ok` lets the run continue. The third
component records, at each completion instant, the remaining queue length and
the number of in-flight pipelines at that instant. -/
def runAux (P : Nat) : Nat → List Nat → List (Nat × TRes) → List (Nat × TRes) →
    BOutcome × List BEvent × List (Nat × Nat)
  | 0, _, _, _ => (BOutcome.stuck, [], [])
  | fuel + 1, oracle, queue, active =>
    match fill P queue active with
    | (q, [], starts) =>
      if q.isEmpty then (BOutcome.okAll, starts, []) else (BOutcome.stuck, starts, [])
    | (q, x :: rest, starts) =>
      let a := x :: rest
      let i := oracle.headD 0 % a.length
      match a.getD i (0, TRes.ok) with
      | (idx, TRes.err) =>
        (BOutcome.firstErr idx, starts ++ [BEvent.complete idx TRes.err],
          [(q.length, a.length)])
      | (idx, TRes.ok) =>
        match runAux P fuel oracle.tail q (a.eraseIdx i) with
        | (out, evs, insts) =>
          (out, starts ++ BEvent.complete idx TRes.ok :: evs,
            (q.length, a.length) :: insts)

/-- `Downloader::download_tracks` (src/download.rs:91-105) on a batch of
tracks with given per-pipeline results: the queue is the track list in order,
nothing is in flight initially, and `tracks.length + 1` fuel covers every
possible completion. -/
def runBatch (P : Nat) (oracle : List Nat) (tracks : List TRes) :
    BOutcome × List BEvent × List (Nat × Nat) :=
  runAux P (tracks.length + 1) oracle tracks.enum []

/-! ## Theorems -/

/-- C8: `Downloader::clean_file_name` is idempotent: sanitizing an
already-sanitized name yields the same name, on every platform class
(`windows` true or false). -/
theorem c8_clean_file_name_idempotent (windows : Bool) (s : Str) :
    cleanFileName windows (cleanFileName windows s) = cleanFileName windows s := by
  simp [cleanFileName, List.filter_filter]

/-- C6: `Downloader::get_file_name` with more than 3 artists keeps exactly the
first 3 artist names joined by `", "` followed by `", and others"`; with 3 or
fewer artists all are joined by `", "`; and for artists `A,B,C,D`, title `T`,
id `xyz` the file name is exactly `"A, B, C, and others - T - xyz"`. -/
theorem c6_get_file_name_truncation (w : Bool) (artists : List Str) (title base62 : Str) :
    (3 < artists.length →
      getFileName w artists title base62
        = cleanFileName w (joinCommaSpace (artists.take 3) ++ ", and others - ".data
            ++ title ++ " - ".data ++ base62))
    ∧ (artists.length ≤ 3 →
      getFileName w artists title base62
        = cleanFileName w (joinCommaSpace artists ++ " - ".data
            ++ title ++ " - ".data ++ base62))
    ∧ getFileName false ["A".data, "B".data, "C".data, "D".data] "T".data "xyz".data
        = "A, B, C, and others - T - xyz".data := by
  refine ⟨fun h => ?_, fun h => ?_, by decide⟩
  · simp [getFileName, h]
  · simp [getFileName, Nat.not_lt.mpr h]

/-- C6 witness: the truncation equation applied at 4 concrete artists. -/
theorem c6_get_file_name_truncation_witness :
    getFileName false ["A".data, "B".data, "C".data, "D".data] "T".data "xyz".data
      = cleanFileName false
          (joinCommaSpace (["A".data, "B".data, "C".data, "D".data].take 3)
            ++ ", and others - ".data ++ "T".data ++ " - ".data ++ "xyz".data) :=
  (c6_get_file_name_truncation false ["A".data, "B".data, "C".data, "D".data]
    "T".data "xyz".data).1 (by decide)

/-- C10: `SpotifyDownloader::download_tracks` hits the `panic!` arm for every
format string other than `"mp3"` and `"flac"`, before any track is resolved
and before any pipeline is started (empty effect list). -/
theorem c10_unknown_format_panics (s : Str) (parallel compression : Option Nat)
    (h1 : s ≠ "mp3".data) (h2 : s ≠ "flac".data) :
    libDownloadTracks s parallel compression = (LibOutcome.formatPanic, []) := by
  simp [libDownloadTracks, parseFormat, h1, h2]

/-- C10 witness: the format string `"wav"` panics with no effects. -/
theorem c10_unknown_format_panics_witness :
    libDownloadTracks "wav".data none none = (LibOutcome.formatPanic, []) :=
  c10_unknown_format_panics "wav".data none none (by decide) (by decide)

/-- C9: the products of one `download_track` run — resolved output path and
encoded bytes — are identical for any two option values that differ only in
the `compression` field; the pipeline never reads it. -/
theorem c9_compression_not_read (w : Bool) (encode : Format → List Int → List Nat)
    (o1 o2 : DownloadOptions)
    (playlistMeta : Option (Str × Str × Str))
    (albumMeta : Option (List Str × Str × Str))
    (fileName : Str) (samples : List Int)
    (hdest : o1.destination = o2.destination)
    (hpar : o1.parallel = o2.parallel)
    (hfmt : o1.format = o2.format) :
    downloadTrackOutputs w encode o1 playlistMeta albumMeta fileName samples
      = downloadTrackOutputs w encode o2 playlistMeta albumMeta fileName samples := by
  obtain ⟨d1, c1, p1, f1⟩ := o1
  obtain ⟨d2, c2, p2, f2⟩ := o2
  simp only at hdest hpar hfmt
  subst hdest hpar hfmt
  rfl

/-- C9 witness: two option values sharing destination, parallelism and format
but with compression 1 and 9 produce the same outputs. -/
theorem c9_compression_not_read_witness :
    downloadTrackOutputs false (fun _ _ => []) ⟨"D".data, some 1, 2, Format.flac⟩
        none none "f".data []
      = downloadTrackOutputs false (fun _ _ => []) ⟨"D".data, some 9, 2, Format.flac⟩
        none none "f".data [] :=
  c9_compression_not_read false (fun _ _ => []) ⟨"D".data, some 1, 2, Format.flac⟩
    ⟨"D".data, some 9, 2, Format.flac⟩ none none "f".data [] rfl rfl rfl

/-- C4 counterexample: a stage failure on which `download_track` does not
return a tagged error but panics — a track in a playlist whose
`Playlist::get` lookup fails hits the `.unwrap()` at src/download.rs:323-324,
refuting the claim that every stage failure is returned as a tagged error
rather than panicking. -/
theorem c4_stage_failure_panics :
    downloadTrackRun TrackSource.playlist
        ⟨true, true, true, false, true, true, true, true, true⟩
      = (RunOutcome.panicked, false) := by
  decide

/-- C4 (amended): failures of the first metadata fetch, of the path's UTF-8
conversion, of encoding, or of the file write make `download_track` return
immediately with an untagged error (no stage-tagged error type exists in the
code); failures of the metadata re-fetch in `get_file_name`, of base62 id
rendering, or of the playlist/album/artist lookups panic instead of
returning; and no branch attempts cleanup of a partially written file. -/
theorem c4_stage_failure_classification (src : TrackSource) (env : PipelineEnv) :
    (downloadTrackRun src env).2 = false
    ∧ (env.metadataOk = false →
        (downloadTrackRun src env).1 = RunOutcome.errorUntagged)
    ∧ (env.metadataOk = true → env.metadataOk2 = false →
        (downloadTrackRun src env).1 = RunOutcome.panicked)
    ∧ (env.metadataOk = true → env.metadataOk2 = true → env.base62Ok = false →
        (downloadTrackRun src env).1 = RunOutcome.panicked)
    ∧ (env.metadataOk = true → env.metadataOk2 = true → env.base62Ok = true →
        lookupsOk src env = false →
        (downloadTrackRun src env).1 = RunOutcome.panicked)
    ∧ (env.metadataOk = true → env.metadataOk2 = true → env.base62Ok = true →
        lookupsOk src env = true → env.pathUtf8Ok = false →
        (downloadTrackRun src env).1 = RunOutcome.errorUntagged)
    ∧ (env.metadataOk = true → env.metadataOk2 = true → env.base62Ok = true →
        lookupsOk src env = true → env.pathUtf8Ok = true → env.encodeOk = false →
        (downloadTrackRun src env).1 = RunOutcome.errorUntagged)
    ∧ (env.metadataOk = true → env.metadataOk2 = true → env.base62Ok = true →
        lookupsOk src env = true → env.pathUtf8Ok = true → env.encodeOk = true →
        env.writeOk = false →
        (downloadTrackRun src env).1 = RunOutcome.errorUntagged)
    ∧ (env.metadataOk = true → env.metadataOk2 = true → env.base62Ok = true →
        lookupsOk src env = true → env.pathUtf8Ok = true → env.encodeOk = true →
        env.writeOk = true →
        (downloadTrackRun src env).1 = RunOutcome.ok) := by
  refine ⟨rfl, ?_, ?_, ?_, ?_, ?_, ?_, ?_, ?_⟩ <;>
    intros <;> simp [downloadTrackRun, downloadTrackOutcome, *]

/-- C4 witness: the all-success run returns `Ok`. -/
theorem c4_stage_failure_classification_witness :
    (downloadTrackRun TrackSource.plain
        ⟨true, true, true, true, true, true, true, true, true⟩).1 = RunOutcome.ok :=
  (c4_stage_failure_classification TrackSource.plain
    ⟨true, true, true, true, true, true, true, true, true⟩).2.2.2.2.2.2.2.2
    rfl rfl rfl rfl rfl rfl rfl

/-- A string ending in the 13 characters of `"and others..."` does not end in
`", "`: its last two characters are `'.'`, `'.'`. -/
theorem endsWithStr_and_others_comma (x : Str) :
    endsWithStr (x ++ "and others...".data) (", ".data) = false := by
  unfold endsWithStr
  have hlen : (x ++ "and others...".data).length = x.length + 13 := by
    simp [List.length_append]
  rw [hlen]
  have h2 : x.length + 13 - (", ".data).length = x.length + 11 := by
    simp
  rw [h2, List.drop_append 11]
  decide

/-- C7 counterexample: for the album artists `A,B,C,D` the artist part of
`album_name` is `"A, B, C, and others..."` — the suffix `"and others..."` is
preceded by a comma and a space (left by the third artist's `"{}, "` push),
refuting the claim that no comma stands before the suffix. -/
theorem c7_album_artist_comma :
    albumArtistsString ["A".data, "B".data, "C".data, "D".data]
        = "A, B, C, and others...".data
    ∧ albumArtistsString ["A".data, "B".data, "C".data, "D".data]
        ≠ joinCommaSpace ["A".data, "B".data, "C".data] ++ "and others...".data
    ∧ albumArtistsString ["A".data, "B".data, "C".data, "D".data]
        ≠ "A, B, C and others...".data := by
  refine ⟨by decide, by decide, by decide⟩

/-- C7 (amended): for an album with more than 3 artists, `album_name` composes
the artist part from the first 3 artist names joined by `", "`, then `", "`,
then the literal suffix `"and others..."` (with ellipsis) — a comma and space
do precede the suffix. -/
theorem c7_album_artist_truncation (names : List Str) (h : 3 < names.length) :
    albumArtistsString names
      = joinCommaSpace (names.take 3) ++ ", and others...".data := by
  match names, h with
  | a :: b :: c :: d :: rest, _ =>
    unfold albumArtistsString
    have hloop : albumArtistsLoop 0 (a :: b :: c :: d :: rest)
        = (a ++ ", ".data ++ b ++ ", ".data ++ c ++ ", ".data)
            ++ "and others...".data := by
      simp [albumArtistsLoop, List.append_assoc]
    rw [hloop, endsWithStr_and_others_comma]
    have hcomma : ", ".data ++ "and others...".data = ", and others...".data := rfl
    simp [joinCommaSpace, List.append_assoc, hcomma]

/-- C7 witness: the amended artist-part equation at 4 concrete artists. -/
theorem c7_album_artist_truncation_witness :
    albumArtistsString ["A".data, "B".data, "C".data, "D".data]
      = joinCommaSpace (["A".data, "B".data, "C".data, "D".data].take 3)
          ++ ", and others...".data :=
  c7_album_artist_truncation ["A".data, "B".data, "C".data, "D".data] (by decide)

/-- C5 counterexample: a track in the playlist `"My Mix"` (user `alice`,
base62 id `xyz`), destination `D`, lossless format, file name `FN`: the code
resolves `D/alice - My Mix - xyz/FN.flac` — the directory is
`playlist_name`'s `"{user} - {name} - {base62-id}"`, not the playlist display
name `My Mix`, refuting the claimed path `D/My Mix/FN.flac`. -/
theorem c5_playlist_directory_name :
    resolveOutputPath false ⟨"D".data, none, 1, Format.flac⟩
        (some ("alice".data, "My Mix".data, "xyz".data)) none "FN".data
      = "D/alice - My Mix - xyz/FN.flac".data
    ∧ resolveOutputPath false ⟨"D".data, none, 1, Format.flac⟩
        (some ("alice".data, "My Mix".data, "xyz".data)) none "FN".data
      ≠ "D/My Mix/FN.flac".data := by
  refine ⟨by decide, by decide⟩

/-- C5 (amended): for a track belonging to a playlist, the output path is
`destination/<clean_file_name("{user} - {name} - {base62-id}")>/<file name>`
with the format's canonical extension appended (stated for dot-free file
names, where `with_extension` appends rather than replaces). -/
theorem c5_playlist_output_path (w : Bool) (dest creator pname pid fname : Str)
    (fmt : Format) (compression : Option Nat) (parallel : Nat)
    (albumMeta : Option (List Str × Str × Str))
    (hdot : '.' ∉ fname) :
    resolveOutputPath w ⟨dest, compression, parallel, fmt⟩
        (some (creator, pname, pid)) albumMeta fname
      = dest ++ ['/'] ++ playlistName w creator pname pid
          ++ ['/'] ++ fname ++ ['.'] ++ fmt.extension := by
  have hfind : fname.reverse.findIdx? (fun c => c == '.') = none := by
    rw [List.findIdx?_eq_none_iff]
    intro x hx
    simp only [beq_eq_false_iff_ne, ne_eq]
    intro hxe
    exact hdot (hxe ▸ List.mem_reverse.mp hx)
  simp [resolveOutputPath, joinPath, rustSetExtension, hfind, List.append_assoc]

/-- C5 witness: the amended path equation at the counterexample's inputs. -/
theorem c5_playlist_output_path_witness :
    resolveOutputPath false ⟨"D".data, none, 1, Format.flac⟩
        (some ("alice".data, "My Mix".data, "xyz".data)) none "FN".data
      = "D".data ++ ['/'] ++ playlistName false "alice".data "My Mix".data "xyz".data
          ++ ['/'] ++ "FN".data ++ ['.'] ++ Format.flac.extension :=
  c5_playlist_output_path false "D".data "alice".data "My Mix".data "xyz".data
    "FN".data Format.flac none 1 none (by decide)

/-- Every value the phase cell holds during the accumulation stage is a
`Downloading` value (phase position 0). -/
theorem phaseIdx_eq_zero_of_mem_downloading (fn : Str) (ws : List (Nat × Nat)) :
    ∀ x ∈ Action.downloading fn 0 0
        :: ws.map (fun bt => Action.downloading fn bt.1 bt.2),
      phaseIdx x = 0 := by
  intro x hx
  rcases List.mem_cons.mp hx with h | h
  · subst h; rfl
  · obtain ⟨bt, _, rfl⟩ := List.mem_map.mp h
    rfl

/-- The accumulation-stage prefix of the trace is monotone in phase position
(all its entries sit at position 0). -/
theorem chain_downloading_prefix (fn : Str) (ws : List (Nat × Nat)) :
    List.Chain' (fun x y => phaseIdx x ≤ phaseIdx y)
      (Action.downloading fn 0 0
        :: ws.map (fun bt => Action.downloading fn bt.1 bt.2)) := by
  suffices h : ∀ (ws : List (Nat × Nat)) (x : Action), phaseIdx x = 0 →
      List.Chain' (fun x y => phaseIdx x ≤ phaseIdx y)
        (x :: ws.map (fun bt => Action.downloading fn bt.1 bt.2)) from
    h ws _ rfl
  intro ws
  induction ws with
  | nil => intro x _; simp
  | cons w ws ih =>
    intro x hx
    rw [List.map_cons, List.chain'_cons]
    exact ⟨by rw [hx]; exact Nat.zero_le _, ih _ rfl⟩

/-- C1: the sequence of values taken by the shared phase cell during a
`download_track` run whose encode and write stages succeed starts at
`Downloading{0,0}`, walks monotonically forward through the four-state chain
(so no phase is reordered or revisited), passes through `Encoding` and
`Writing` exactly once each, and terminates at `Downloaded`, which also
occurs exactly once. -/
theorem c1_phase_walk (fn : Str) (events : List SinkEvent) (encodeOk writeOk : Bool)
    (he : encodeOk = true) (hw : writeOk = true) :
    (phaseTrace fn events encodeOk writeOk).head? = some (Action.downloading fn 0 0)
    ∧ List.Chain' (fun x y => phaseIdx x ≤ phaseIdx y)
        (phaseTrace fn events encodeOk writeOk)
    ∧ (phaseTrace fn events encodeOk writeOk).count (Action.encoding fn) = 1
    ∧ (phaseTrace fn events encodeOk writeOk).count (Action.writing fn) = 1
    ∧ (phaseTrace fn events encodeOk writeOk).count (Action.downloaded fn) = 1
    ∧ (phaseTrace fn events encodeOk writeOk).getLast? = some (Action.downloaded fn) := by
  subst he hw
  have htr : phaseTrace fn events true true
      = (Action.downloading fn 0 0
          :: (accumWrites events).map (fun bt => Action.downloading fn bt.1 bt.2))
        ++ [Action.encoding fn, Action.writing fn, Action.downloaded fn] := by
    simp [phaseTrace]
  rw [htr]
  set pre := Action.downloading fn 0 0
      :: (accumWrites events).map (fun bt => Action.downloading fn bt.1 bt.2) with hpre
  have hmem := phaseIdx_eq_zero_of_mem_downloading fn (accumWrites events)
  rw [← hpre] at hmem
  refine ⟨by simp [hpre], ?_, ?_, ?_, ?_, ?_⟩
  · refine List.Chain'.append ?_ ?_ ?_
    · exact chain_downloading_prefix fn (accumWrites events)
    · simp [List.chain'_cons, phaseIdx]
    · intro x hx y hy
      obtain ⟨hne, hxl⟩ := List.mem_getLast?_eq_getLast hx
      have h0 : phaseIdx x = 0 := hmem x (hxl ▸ List.getLast_mem hne)
      simp only [List.head?_cons, Option.mem_def, Option.some.injEq] at hy
      rw [h0, ← hy]
      exact Nat.zero_le _
  · have h0 : pre.count (Action.encoding fn) = 0 :=
      List.count_eq_zero.mpr (fun hm => by simpa [phaseIdx] using hmem _ hm)
    simp [List.count_append, h0]
  · have h0 : pre.count (Action.writing fn) = 0 :=
      List.count_eq_zero.mpr (fun hm => by simpa [phaseIdx] using hmem _ hm)
    simp [List.count_append, h0]
  · have h0 : pre.count (Action.downloaded fn) = 0 :=
      List.count_eq_zero.mpr (fun hm => by simpa [phaseIdx] using hmem _ hm)
    simp [List.count_append, h0]
  · have hsplit : pre ++ [Action.encoding fn, Action.writing fn, Action.downloaded fn]
        = (pre ++ [Action.encoding fn, Action.writing fn]) ++ [Action.downloaded fn] := by
      simp
    rw [hsplit]
    exact List.getLast?_concat _

/-- C1 witness: the phase-cell walk on a run with two write events. -/
theorem c1_phase_walk_witness :
    (phaseTrace "t".data [SinkEvent.write 3 10 [], SinkEvent.write 7 10 [],
        SinkEvent.finished] true true).head?
      = some (Action.downloading "t".data 0 0)
    ∧ List.Chain' (fun x y => phaseIdx x ≤ phaseIdx y)
        (phaseTrace "t".data [SinkEvent.write 3 10 [], SinkEvent.write 7 10 [],
          SinkEvent.finished] true true)
    ∧ (phaseTrace "t".data [SinkEvent.write 3 10 [], SinkEvent.write 7 10 [],
        SinkEvent.finished] true true).count (Action.encoding "t".data) = 1
    ∧ (phaseTrace "t".data [SinkEvent.write 3 10 [], SinkEvent.write 7 10 [],
        SinkEvent.finished] true true).count (Action.writing "t".data) = 1
    ∧ (phaseTrace "t".data [SinkEvent.write 3 10 [], SinkEvent.write 7 10 [],
        SinkEvent.finished] true true).count (Action.downloaded "t".data) = 1
    ∧ (phaseTrace "t".data [SinkEvent.write 3 10 [], SinkEvent.write 7 10 [],
        SinkEvent.finished] true true).getLast? = some (Action.downloaded "t".data) :=
  c1_phase_walk "t".data [SinkEvent.write 3 10 [], SinkEvent.write 7 10 [],
    SinkEvent.finished] true true rfl rfl

/-- Admission preserves the combined number of queued and in-flight tracks. -/
theorem fill_length_sum (P : Nat) (q a : List (Nat × TRes)) :
    (fill P q a).1.length + (fill P q a).2.1.length = q.length + a.length := by
  induction q generalizing a with
  | nil => simp [fill]
  | cons t q ih =>
    simp only [fill]
    split
    · have := ih (a ++ [t])
      simp [List.length_append] at this ⊢
      omega
    · simp

/-- Admission never brings the number of in-flight pipelines above the bound. -/
theorem fill_active_le (P : Nat) (q a : List (Nat × TRes)) (h : a.length ≤ P) :
    (fill P q a).2.1.length ≤ P := by
  induction q generalizing a with
  | nil => simpa [fill]
  | cons t q ih =>
    simp only [fill]
    split
    · exact ih (a ++ [t]) (by simp; omega)
    · simpa

/-- If tracks remain queued after admission, the in-flight set is at capacity
(admission stopped because the bound was reached). -/
theorem fill_full (P : Nat) (q a : List (Nat × TRes))
    (h : (fill P q a).1 ≠ []) : P ≤ (fill P q a).2.1.length := by
  induction q generalizing a with
  | nil => simp [fill] at h
  | cons t q ih =>
    by_cases hlt : a.length < P
    · simp only [fill, if_pos hlt] at h ⊢
      exact ih (a ++ [t]) h
    · simp only [fill, if_neg hlt]
      simpa using Nat.le_of_not_lt hlt

/-- Admission emits one `started` event per track moved out of the queue. -/
theorem fill_start_count (P : Nat) (q a : List (Nat × TRes)) :
    q.length = (fill P q a).1.length + (fill P q a).2.2.countP isStarted := by
  induction q generalizing a with
  | nil => simp [fill]
  | cons t q ih =>
    simp only [fill]
    split
    · have := ih (a ++ [t])
      simp [List.countP_cons, isStarted] at this ⊢
      omega
    · simp

/-- Admission emits no `complete` events. -/
theorem fill_no_complete (P : Nat) (q a : List (Nat × TRes)) :
    (fill P q a).2.2.countP isComplete = 0 := by
  induction q generalizing a with
  | nil => simp [fill]
  | cons t q ih =>
    simp only [fill]
    split
    · simp [List.countP_cons, isComplete, ih (a ++ [t])]
    · simp

/-- No admission event is an error completion. -/
theorem fill_no_err (P : Nat) (q a : List (Nat × TRes)) :
    ∀ e ∈ (fill P q a).2.2, isErrComplete e = false := by
  induction q generalizing a with
  | nil => simp [fill]
  | cons t q ih =>
    simp only [fill]
    split
    · intro e he
      rcases List.mem_cons.mp he with rfl | he
      · rfl
      · exact ih (a ++ [t]) e he
    · simp

/-- Unfolding `runAux` at zero fuel. -/
theorem runAux_zero (P : Nat) (oracle : List Nat) (queue active : List (Nat × TRes)) :
    runAux P 0 oracle queue active = (BOutcome.stuck, [], []) := rfl

/-- Unfolding `runAux` when admission leaves nothing in flight. -/
theorem runAux_succ_empty (P fuel : Nat) (oracle : List Nat)
    (queue active q : List (Nat × TRes)) (starts : List BEvent)
    (hf : fill P queue active = (q, [], starts)) :
    runAux P (fuel + 1) oracle queue active
      = if q.isEmpty then (BOutcome.okAll, starts, [])
        else (BOutcome.stuck, starts, []) := by
  simp only [runAux, hf]

/-- Unfolding `runAux` when the oracle-selected pipeline completes with an
error. -/
theorem runAux_succ_err (P fuel : Nat) (oracle : List Nat)
    (queue active q : List (Nat × TRes)) (x : Nat × TRes) (rest : List (Nat × TRes))
    (starts : List BEvent) (idx : Nat)
    (hf : fill P queue active = (q, x :: rest, starts))
    (hg : (x :: rest).getD (oracle.headD 0 % (x :: rest).length) (0, TRes.ok)
        = (idx, TRes.err)) :
    runAux P (fuel + 1) oracle queue active
      = (BOutcome.firstErr idx, starts ++ [BEvent.complete idx TRes.err],
          [(q.length, (x :: rest).length)]) := by
  simp only [runAux, hf, hg]

/-- Unfolding `runAux` when the oracle-selected pipeline completes
successfully. -/
theorem runAux_succ_ok (P fuel : Nat) (oracle : List Nat)
    (queue active q : List (Nat × TRes)) (x : Nat × TRes) (rest : List (Nat × TRes))
    (starts : List BEvent) (idx : Nat) (out : BOutcome) (evs : List BEvent)
    (insts : List (Nat × Nat))
    (hf : fill P queue active = (q, x :: rest, starts))
    (hg : (x :: rest).getD (oracle.headD 0 % (x :: rest).length) (0, TRes.ok)
        = (idx, TRes.ok))
    (hr : runAux P fuel oracle.tail q
        ((x :: rest).eraseIdx (oracle.headD 0 % (x :: rest).length))
        = (out, evs, insts)) :
    runAux P (fuel + 1) oracle queue active
      = (out, starts ++ BEvent.complete idx TRes.ok :: evs,
          (q.length, (x :: rest).length) :: insts) := by
  simp only [runAux, hf, hg, hr]

/-- Removing one in-flight pipeline never increases the in-flight count. -/
theorem length_eraseIdx_le (l : List (Nat × TRes)) (i : Nat) :
    (l.eraseIdx i).length ≤ l.length := by
  rw [List.length_eraseIdx]
  split <;> omega

/-- Invariant of the batch scheduler loop: if at most `P` pipelines are in
flight on entry, then at every completion instant at most `P` are in flight,
and whenever the queue is nonempty at such an instant, exactly `P` are. -/
theorem runAux_instants_bound (P fuel : Nat) :
    ∀ (oracle : List Nat) (queue active : List (Nat × TRes)),
      active.length ≤ P →
      ∀ inst ∈ (runAux P fuel oracle queue active).2.2,
        inst.2 ≤ P ∧ (inst.1 ≠ 0 → inst.2 = P) := by
  induction fuel with
  | zero =>
    intro oracle queue active _ inst hmem
    rw [runAux_zero] at hmem
    simp at hmem
  | succ fuel ih =>
    intro oracle queue active hact inst hmem
    rcases hf : fill P queue active with ⟨q, a, starts⟩
    have hale : a.length ≤ P := by
      have h := fill_active_le P queue active hact
      rw [hf] at h
      exact h
    cases a with
    | nil =>
      rw [runAux_succ_empty P fuel oracle queue active q starts hf] at hmem
      split at hmem <;> simp at hmem
    | cons x rest =>
      have hfull : q.length ≠ 0 → (x :: rest).length = P := by
        intro hq
        have h := fill_full P queue active
          (by rw [hf]; simpa using List.length_pos.mp (Nat.pos_of_ne_zero hq))
        rw [hf] at h
        exact Nat.le_antisymm hale h
      rcases hg : (x :: rest).getD (oracle.headD 0 % (x :: rest).length) (0, TRes.ok)
        with ⟨idx, r⟩
      cases r with
      | err =>
        rw [runAux_succ_err P fuel oracle queue active q x rest starts idx hf hg] at hmem
        simp only [List.mem_singleton] at hmem
        subst hmem
        exact ⟨hale, hfull⟩
      | ok =>
        rcases hr : runAux P fuel oracle.tail q
            ((x :: rest).eraseIdx (oracle.headD 0 % (x :: rest).length))
          with ⟨out, evs, insts⟩
        rw [runAux_succ_ok P fuel oracle queue active q x rest starts idx out evs insts
          hf hg hr] at hmem
        simp only [List.mem_cons] at hmem
        rcases hmem with rfl | hmem
        · exact ⟨hale, hfull⟩
        · have herase : ((x :: rest).eraseIdx (oracle.headD 0 % (x :: rest).length)).length ≤ P :=
            le_trans (length_eraseIdx_le _ _) hale
          have h := ih oracle.tail q _ herase inst (by rw [hr]; exact hmem)
          exact h

/-- C2: running a batch of N tracks through `download_tracks` with
`parallel = P < N`, the number of simultaneously in-flight pipelines at every
completion instant never exceeds `P`, and whenever tracks are still queued at
such an instant exactly `P` pipelines are in flight — i.e. a finishing
pipeline's slot is immediately refilled from the queue. -/
theorem c2_bounded_parallelism (P : Nat) (oracle : List Nat) (tracks : List TRes)
    (_hP : P < tracks.length) :
    ∀ inst ∈ (runBatch P oracle tracks).2.2,
      inst.2 ≤ P ∧ (inst.1 ≠ 0 → inst.2 = P) := by
  intro inst hmem
  exact runAux_instants_bound P (tracks.length + 1) oracle tracks.enum []
    (by simp) inst hmem

/-- C2 witness: a batch of three tracks at parallelism 1, checked at its
first completion instant (two tracks still queued, one in flight). -/
theorem c2_bounded_parallelism_witness :
    (2, 1) ∈ (runBatch 1 [] [TRes.ok, TRes.ok, TRes.ok]).2.2
    ∧ ((2, 1) : Nat × Nat).2 ≤ 1
    ∧ (((2, 1) : Nat × Nat).1 ≠ 0 → ((2, 1) : Nat × Nat).2 = 1) :=
  ⟨by decide,
   c2_bounded_parallelism 1 [] [TRes.ok, TRes.ok, TRes.ok] (by decide) (2, 1) (by decide)⟩

/-- If the scheduler run returns `Ok`, every queued track was admitted and
every admitted pipeline completed: the events contain one admission and one
completion per initially queued or in-flight track. -/
theorem runAux_okAll_counts (P fuel : Nat) :
    ∀ (oracle : List Nat) (queue active : List (Nat × TRes)),
      (runAux P fuel oracle queue active).1 = BOutcome.okAll →
      (runAux P fuel oracle queue active).2.1.countP isComplete
          = queue.length + active.length
      ∧ (runAux P fuel oracle queue active).2.1.countP isStarted = queue.length := by
  induction fuel with
  | zero =>
    intro oracle queue active h
    rw [runAux_zero] at h
    simp at h
  | succ fuel ih =>
    intro oracle queue active h
    rcases hf : fill P queue active with ⟨q, a, starts⟩
    have hsum : q.length + a.length = queue.length + active.length := by
      have hs := fill_length_sum P queue active
      rw [hf] at hs
      exact hs
    have hstart : queue.length = q.length + starts.countP isStarted := by
      have ha := fill_start_count P queue active
      rw [hf] at ha
      exact ha
    have hnoc : starts.countP isComplete = 0 := by
      have hn := fill_no_complete P queue active
      rw [hf] at hn
      exact hn
    cases a with
    | nil =>
      rw [runAux_succ_empty P fuel oracle queue active q starts hf] at h ⊢
      by_cases hq : q.isEmpty
      · have hq0 : q = [] := List.isEmpty_iff.mp hq
        subst hq0
        simp only [hq, if_pos] at h ⊢
        simp only [List.length_nil] at hsum hstart
        refine ⟨?_, ?_⟩
        · rw [hnoc]
          omega
        · omega
      · simp [hq] at h
    | cons x rest =>
      rcases hg : (x :: rest).getD (oracle.headD 0 % (x :: rest).length) (0, TRes.ok)
        with ⟨idx, r⟩
      cases r with
      | err =>
        rw [runAux_succ_err P fuel oracle queue active q x rest starts idx hf hg] at h
        simp at h
      | ok =>
        rcases hr : runAux P fuel oracle.tail q
            ((x :: rest).eraseIdx (oracle.headD 0 % (x :: rest).length))
          with ⟨out, evs, insts⟩
        rw [runAux_succ_ok P fuel oracle queue active q x rest starts idx out evs insts
          hf hg hr] at h ⊢
        simp only at h
        subst h
        have hih := ih oracle.tail q _ (by rw [hr])
        rw [hr] at hih
        simp only at hih
        have hmod : oracle.headD 0 % (x :: rest).length < (x :: rest).length := by
          apply Nat.mod_lt
          simp
        have hel : ((x :: rest).eraseIdx (oracle.headD 0 % (x :: rest).length)).length
            = rest.length := by
          rw [List.length_eraseIdx, if_pos hmod]
          simp
        rw [hel] at hih
        constructor
        · simp only [List.countP_append, List.countP_cons, hnoc, hih.1, isComplete]
          simp at hsum ⊢
          omega
        · simp only [List.countP_append, List.countP_cons, hih.2, isStarted]
          simp
          omega

/-- If the scheduler run returns the first error, the error completion is the
last event of the run: no admission and no other completion follows it, and
no earlier event is an error completion. -/
theorem runAux_firstErr_last (P fuel : Nat) :
    ∀ (oracle : List Nat) (queue active : List (Nat × TRes)) (i : Nat),
      (runAux P fuel oracle queue active).1 = BOutcome.firstErr i →
      ∃ pre, (runAux P fuel oracle queue active).2.1
          = pre ++ [BEvent.complete i TRes.err]
        ∧ ∀ e ∈ pre, isErrComplete e = false := by
  induction fuel with
  | zero =>
    intro oracle queue active i h
    rw [runAux_zero] at h
    simp at h
  | succ fuel ih =>
    intro oracle queue active i h
    rcases hf : fill P queue active with ⟨q, a, starts⟩
    have hnoe : ∀ e ∈ starts, isErrComplete e = false := by
      have hn := fill_no_err P queue active
      rw [hf] at hn
      exact hn
    cases a with
    | nil =>
      rw [runAux_succ_empty P fuel oracle queue active q starts hf] at h
      split at h <;> simp at h
    | cons x rest =>
      rcases hg : (x :: rest).getD (oracle.headD 0 % (x :: rest).length) (0, TRes.ok)
        with ⟨idx, r⟩
      cases r with
      | err =>
        rw [runAux_succ_err P fuel oracle queue active q x rest starts idx hf hg] at h ⊢
        simp only [BOutcome.firstErr.injEq] at h
        subst h
        exact ⟨starts, by simp, hnoe⟩
      | ok =>
        rcases hr : runAux P fuel oracle.tail q
            ((x :: rest).eraseIdx (oracle.headD 0 % (x :: rest).length))
          with ⟨out, evs, insts⟩
        rw [runAux_succ_ok P fuel oracle queue active q x rest starts idx out evs insts
          hf hg hr] at h ⊢
        simp only at h
        subst h
        obtain ⟨pre, hevs, hpre⟩ := by
          have hih := ih oracle.tail q
            ((x :: rest).eraseIdx (oracle.headD 0 % (x :: rest).length)) i (by rw [hr])
          rw [hr] at hih
          exact hih
        simp only at hevs
        subst hevs
        refine ⟨starts ++ BEvent.complete idx TRes.ok :: pre, by simp, ?_⟩
        intro e he
        rcases List.mem_append.mp he with he | he
        · exact hnoe e he
        · rcases List.mem_cons.mp he with rfl | he
          · rfl
          · exact hpre e he

/-- C3: if a pipeline errors, the batch run ends at the first observed error:
that error completion is the run's final event (so no queued track is
admitted afterwards and no earlier event was an error), and its index is the
returned batch result. On success, the run returns `Ok` only after admitting
and completing a pipeline for every one of the N tracks. -/
theorem c3_fail_fast (P : Nat) (oracle : List Nat) (tracks : List TRes) :
    (∀ i, (runBatch P oracle tracks).1 = BOutcome.firstErr i →
      ∃ pre, (runBatch P oracle tracks).2.1 = pre ++ [BEvent.complete i TRes.err]
        ∧ ∀ e ∈ pre, isErrComplete e = false)
    ∧ ((runBatch P oracle tracks).1 = BOutcome.okAll →
      (runBatch P oracle tracks).2.1.countP isComplete = tracks.length
      ∧ (runBatch P oracle tracks).2.1.countP isStarted = tracks.length) := by
  constructor
  · intro i h
    exact runAux_firstErr_last P (tracks.length + 1) oracle tracks.enum [] i h
  · intro h
    have hc := runAux_okAll_counts P (tracks.length + 1) oracle tracks.enum [] h
    simpa [List.enum_length] using hc

/-- C3 witness: a two-track batch at parallelism 1 whose second pipeline
errors; the error completion is the final event. -/
theorem c3_fail_fast_witness :
    ∃ pre, (runBatch 1 [] [TRes.ok, TRes.err]).2.1
        = pre ++ [BEvent.complete 1 TRes.err]
      ∧ ∀ e ∈ pre, isErrComplete e = false :=
  (c3_fail_fast 1 [] [TRes.ok, TRes.err]).1 1 (by decide)

end SpotifyDL
